import Mathlib

/-!
Verification development for the `gol` repository (Conway's Game of Life in a
terminal). The repository holds two near-identical revisions of its core:
`src/game.rs` (with `clear`/`randomize`, six shape presets, and a
dimension-aware `Shape::get_cells`) and `src/board.rs` (the module actually
declared by `main.rs`, with a modulo-based neighbor count and a
dimension-free `Shape::get_cells`). Both revisions are embedded below; every
definition is a direct translation of the named Rust item. Machine integers
are modelled as `Nat`; `u16` wrap-around is written explicitly as `% 65536`
where the Rust arithmetic can overflow (`Board::in_bounds`). Rust indexing
panics are modelled by `Option` results or by theorems carrying in-range
hypotheses.
-/

namespace Gol

/-- Embeds `Cell` from `game.rs`/`board.rs`: a two-valued cell state. -/
inductive Cell where
  | Alive
  | Dead
deriving DecidableEq, Repr

/-- Embeds `Cell::flip` from `game.rs` (lines 11-16): toggle Alive/Dead. -/
def Cell.flip : Cell → Cell
  | Cell.Alive => Cell.Dead
  | Cell.Dead => Cell.Alive

/-- Embeds `Position` from `game.rs`/`board.rs`: a (row, column) pair of `usize`. -/
structure Position where
  row : Nat
  column : Nat
deriving DecidableEq, Repr

/-- Embeds `Shape` from `game.rs`/`board.rs`: a pattern of offsets plus an optional
translation offset. -/
structure Shape where
  pattern : List Position
  offset : Option Position
deriving DecidableEq, Repr

/-- Embeds `Board` from `game.rs`/`board.rs`: dimensions (`u16` in Rust) plus the
cell matrix. -/
structure Board where
  width : Nat
  height : Nat
  cells : List (List Cell)
deriving DecidableEq, Repr

/-- Read entry `(r, c)` of a cell matrix. Rust's `cells[r][c]` panics out of
range; theorems about reads carry in-range hypotheses, and out of range this
total model returns `Cell.Dead`. -/
def getCell (m : List (List Cell)) (r c : Nat) : Cell :=
  (m.getD r []).getD c Cell.Dead

/-- Write entry `(r, c)` of a cell matrix (`cells[r][c] = v`); out of range
this is a no-op (Rust would panic there, a case excluded by the theorems'
hypotheses). -/
def setCell (m : List (List Cell)) (r c : Nat) (v : Cell) : List (List Cell) :=
  m.set r ((m.getD r []).set c v)

/-- The matrix-shape invariant: exactly `height` rows, each of exactly
`width` cells. -/
def Board.WF (b : Board) : Prop :=
  b.cells.length = b.height ∧ ∀ i, i < b.height → (b.cells.getD i []).length = b.width

instance (b : Board) : Decidable b.WF := by
  unfold Board.WF
  infer_instance

/-- Embeds `Shape::get_cells(width, height)` from `game.rs` (lines 79-88): if the
shape has an offset, each pattern position is translated and wrapped modulo
`height`/`width`; otherwise the pattern is returned unchanged. -/
def Shape.get_cells (s : Shape) (width height : Nat) : List Position :=
  match s.offset with
  | some point =>
      s.pattern.map (fun pos =>
        { row := (pos.row + point.row) % height,
          column := (pos.column + point.column) % width })
  | none => s.pattern

/-- Embeds `Shape::get_cells()` from `board.rs` (lines 74-83): same translation but
with no target dimensions and no modulo wrapping. -/
def Shape.get_cells_unwrapped (s : Shape) : List Position :=
  match s.offset with
  | some point =>
      s.pattern.map (fun pos =>
        { row := pos.row + point.row, column := pos.column + point.column })
  | none => s.pattern

/-- Embeds `Board::count_living_neighbors` from `game.rs` (lines 132-172): the
wrapped row above/below and column left/right are computed by explicit edge
branching, then the eight listed neighbor entries are counted when Alive.
There is no check that a wrapped index coincides with `pos` itself. -/
def Board.count_living_neighbors (b : Board) (pos : Position) : Nat :=
  let row_up := if pos.row ≠ 0 then pos.row - 1 else b.height - 1
  let row_down := if pos.row ≠ b.height - 1 then pos.row + 1 else 0
  let left_column := if pos.column ≠ 0 then pos.column - 1 else b.width - 1
  let right_column := if pos.column ≠ b.width - 1 then pos.column + 1 else 0
  let neighbors := [(row_up, left_column), (row_up, pos.column), (row_up, right_column),
    (pos.row, left_column), (pos.row, right_column),
    (row_down, left_column), (row_down, pos.column), (row_down, right_column)]
  neighbors.foldl
    (fun count n => if getCell b.cells n.1 n.2 = Cell.Alive then count + 1 else count) 0

/-- Embeds `Board::count_living_neighbors` from `board.rs` (lines 109-124): for each
`dr` in `[height-1, 0, 1]` and `dc` in `[width-1, 0, 1]` the wrapped index
`((pos.row + dr) % height, (pos.column + dc) % width)` is counted when the
cell there is Alive and the wrapped index differs from `pos` itself. -/
def Board.count_living_neighbors_mod (b : Board) (pos : Position) : Nat :=
  [b.height - 1, 0, 1].foldl
    (fun count dr =>
      let neighbor_row := (pos.row + dr) % b.height
      [b.width - 1, 0, 1].foldl
        (fun count dc =>
          let neighbor_column := (pos.column + dc) % b.width
          if getCell b.cells neighbor_row neighbor_column = Cell.Alive ∧
              (neighbor_row, neighbor_column) ≠ (pos.row, pos.column)
          then count + 1 else count)
        count)
    0

/-- One iteration of the inner loop body of `Board::tick` (`game.rs` lines
220-233, `board.rs` lines 155-168): reading the old board `b`, possibly
overwrite entry `(row, column)` of the matrix being built. The two revisions
differ only in which neighbor-count function `cnt` they call. -/
def tickStep (b : Board) (cnt : Board → Position → Nat)
    (m : List (List Cell)) (row column : Nat) : List (List Cell) :=
  let state := getCell b.cells row column
  let n := cnt b { row := row, column := column }
  if state = Cell.Dead ∧ n = 3 then setCell m row column Cell.Alive
  else if state = Cell.Alive ∧ n > 3 then setCell m row column Cell.Dead
  else if state = Cell.Alive ∧ n < 2 then setCell m row column Cell.Dead
  else m

/-- Embeds `Board::tick`: clone the matrix, then run the row-major double loop of
`tickStep`, reading every cell state and neighbor count from the pre-tick
board, and finally install the new matrix. -/
def tickWith (cnt : Board → Position → Nat) (b : Board) : Board :=
  { b with cells :=
      ((List.range b.height).foldl
        (fun m row =>
          (List.range b.width).foldl (fun m column => tickStep b cnt m row column) m)
        b.cells) }

/-- Embeds `Board::tick` from `game.rs` (lines 217-235). -/
def Board.tick (b : Board) : Board :=
  tickWith Board.count_living_neighbors b

/-- Embeds `Board::tick` from `board.rs` (lines 152-170). -/
def Board.tick_mod (b : Board) : Board :=
  tickWith Board.count_living_neighbors_mod b

/-- Embeds `Board::flip_cell` from `game.rs` (lines 174-176) / `board.rs` (126-128). -/
def Board.flip_cell (b : Board) (pos : Position) : Board :=
  { b with cells :=
      setCell b.cells pos.row pos.column (getCell b.cells pos.row pos.column).flip }

/-- Embeds `Board::add_shape(pos, shape)` from `game.rs` (lines 192-199): replace the
shape's offset by `pos`, materialize against this board's dimensions, and set
every resulting position Alive. -/
def Board.add_shape (b : Board) (pos : Position) (shape : Shape) : Board :=
  let positioned_shape : Shape := { shape with offset := some pos }
  { b with cells :=
      ((positioned_shape.get_cells b.width b.height).foldl
        (fun m p => setCell m p.row p.column Cell.Alive) b.cells) }

/-- Embeds `Board::clear` from `game.rs` (lines 209-215): set every cell Dead. -/
def Board.clear (b : Board) : Board :=
  { b with cells := b.cells.map (fun row => row.map (fun _ => Cell.Dead)) }

/-- Embeds `Board::randomize` from `game.rs` (lines 201-207): overwrite every cell
with an independent random boolean draw (the old cell value is never read;
only the matrix shape is). The randomness source is modelled as an explicit
oracle `r` giving the draw used for the cell at row `i`, column `j`. -/
def Board.randomize (b : Board) (r : Nat → Nat → Bool) : Board :=
  { b with cells :=
      (List.range b.cells.length).map (fun i =>
        (List.range (b.cells.getD i []).length).map (fun j =>
          if r i j then Cell.Alive else Cell.Dead)) }

/-- Embeds `Board::new(width, height, initial_life)` from `board.rs` (lines 96-107):
an all-Dead `height × width` matrix with every seed position set Alive. Rust
panics when a seed position is out of range; that is modelled by returning
`none` (the partially mutated matrix a panic abandons is unobservable). No
dimension check of any kind is performed. -/
def Board.new (width height : Nat) (initial_life : Option (List Position)) :
    Option Board :=
  let cells := List.replicate height (List.replicate width Cell.Dead)
  match initial_life with
  | none => some { width := width, height := height, cells := cells }
  | some init =>
      if init.all (fun p => decide (p.row < height ∧ p.column < width)) then
        some { width := width, height := height, cells :=
          init.foldl (fun m p => setCell m p.row p.column Cell.Alive) cells }
      else none

/-- Embeds `Rect` from the `tui` crate: only `width` is read by `in_bounds`. All
fields are `u16`. -/
structure Rect where
  x : Nat
  y : Nat
  width : Nat
  height : Nat

/-- Embeds `Board::GAME_BOARD_TOP`. -/
def GAME_BOARD_TOP : Nat := 5

/-- Embeds `Board::in_bounds(row, column, term_rect)` from `game.rs` (lines 178-190)
/ `board.rs` (130-142). The Rust arithmetic is on `u16`; the subtraction
`term_rect.width - self.width * 2` and the additions can wrap, which is
modelled explicitly modulo `65536` (release-profile two's-complement
wrapping). `Ok`/`Err` is modelled as `Option`. -/
def Board.in_bounds (b : Board) (row column : Nat) (term_rect : Rect) :
    Option Position :=
  let left := ((term_rect.width % 65536 + 65536 - (b.width * 2) % 65536) % 65536) / 2
  let right := (left + (b.width * 2) % 65536) % 65536
  let top := GAME_BOARD_TOP
  let bottom := (top + b.height % 65536) % 65536
  if row < bottom ∧ top ≤ row ∧ column < right ∧ left ≤ column then
    some { row := row - top, column := (column - left) / 2 }
  else none

/-- Shape of a cell matrix: exactly `h` rows, each of exactly `w` cells. -/
def Dims (m : List (List Cell)) (w h : Nat) : Prop :=
  m.length = h ∧ ∀ i, i < h → (m.getD i []).length = w

/-- Modelled from the spec: the Game-of-Life transition rule exactly as the
spec partitions it — a Dead cell with exactly 3 living neighbors becomes
Alive; an Alive cell with neighbor count > 3 becomes Dead; an Alive cell
with neighbor count < 2 becomes Dead; every other (state, count)
combination is unchanged. -/
def specNextCell (state : Cell) (n : Nat) : Cell :=
  if state = Cell.Dead ∧ n = 3 then Cell.Alive
  else if state = Cell.Alive ∧ n > 3 then Cell.Dead
  else if state = Cell.Alive ∧ n < 2 then Cell.Dead
  else state

/-- The inner (column) loop of `tick`, cut off after the first `n` columns. -/
def innerFold (b : Board) (cnt : Board → Position → Nat) (row n : Nat)
    (m : List (List Cell)) : List (List Cell) :=
  (List.range n).foldl (fun m column => tickStep b cnt m row column) m

/-- The outer (row) loop of `tick`, cut off after the first `n` rows. -/
def outerFold (b : Board) (cnt : Board → Position → Nat) (n : Nat)
    (m : List (List Cell)) : List (List Cell) :=
  (List.range n).foldl (fun m row => innerFold b cnt row b.width m) m

/-- Modelled from the spec: the 8 Moore-neighborhood offsets
`{-1,0,1} × {-1,0,1}` minus `(0,0)`, in row-major order. -/
def neighborOffsets : List (Int × Int) :=
  [(-1, -1), (-1, 0), (-1, 1), (0, -1), (0, 1), (1, -1), (1, 0), (1, 1)]

/-- Wrap index `n + d` modulo `m` (the spec's "taken modulo height/width"). -/
def wrapIdx (n : Nat) (d : Int) (m : Nat) : Nat :=
  (((n : Int) + d) % (m : Int)).toNat

/-- Modelled from the spec: the number of Alive cells reached by the 8
toroidal Moore-neighborhood offsets, each wrapped modulo height/width, always
excluding the cell at `pos` itself. -/
def specNeighborCount (b : Board) (pos : Position) : Nat :=
  neighborOffsets.foldl
    (fun count d =>
      if getCell b.cells (wrapIdx pos.row d.1 b.height) (wrapIdx pos.column d.2 b.width)
            = Cell.Alive ∧
          (wrapIdx pos.row d.1 b.height, wrapIdx pos.column d.2 b.width)
            ≠ (pos.row, pos.column)
      then count + 1 else count) 0

/-- A small concrete well-formed board used by the witness theorems. -/
def sampleBoard : Board :=
  { width := 2, height := 2,
    cells := [[Cell.Dead, Cell.Alive], [Cell.Alive, Cell.Dead]] }

/-- Embeds `Shape::new` from `game.rs` (lines 74-77). -/
def Shape.new (cells : List (Nat × Nat)) (offset : Option Position) : Shape :=
  { pattern := cells.map (fun t => { row := t.1, column := t.2 }), offset := offset }

/-- Embeds `Shape::GLIDER` from `game.rs` (line 65). -/
def GLIDER : List (Nat × Nat) := [(0, 2), (1, 0), (1, 2), (2, 1), (2, 2)]

/-- Modelled from the spec: the screen region in which the board is rendered
(top margin `GAME_BOARD_TOP`, horizontally centered, two screen columns per
board column), meaningful when the terminal is at least as wide as the
rendered board. -/
def renderedRegion (b : Board) (term_rect : Rect) (row column : Nat) : Prop :=
  5 ≤ row ∧ row < 5 + b.height ∧
    (term_rect.width - b.width * 2) / 2 ≤ column ∧
    column < (term_rect.width - b.width * 2) / 2 + b.width * 2

/-! ### List access lemmas -/

theorem getD_set_self {α} (l : List α) (i : Nat) (v d : α) (h : i < l.length) :
    (l.set i v).getD i d = v := by
  induction l generalizing i with
  | nil => simp at h
  | cons a t ih =>
    cases i with
    | zero => rfl
    | succ n =>
      simp only [List.set_cons_succ, List.getD_cons_succ]
      exact ih n (by simpa using h)

theorem getD_set_ne {α} (l : List α) (i j : Nat) (v d : α) (h : i ≠ j) :
    (l.set i v).getD j d = l.getD j d := by
  induction l generalizing i j with
  | nil => simp
  | cons a t ih =>
    cases i with
    | zero =>
      cases j with
      | zero => exact absurd rfl h
      | succ m => rfl
    | succ n =>
      cases j with
      | zero => rfl
      | succ m =>
        simp only [List.set_cons_succ, List.getD_cons_succ]
        exact ih n m (fun he => h (by rw [he]))

theorem set_of_length_le {α} (l : List α) (i : Nat) (v : α) (h : l.length ≤ i) :
    l.set i v = l := by
  induction l generalizing i with
  | nil => rfl
  | cons a t ih =>
    cases i with
    | zero => simp at h
    | succ n => simp only [List.set_cons_succ]; rw [ih n (by simpa using h)]

theorem getD_of_length_le {α} (l : List α) (i : Nat) (d : α) (h : l.length ≤ i) :
    l.getD i d = d := by
  induction l generalizing i with
  | nil => rfl
  | cons a t ih =>
    cases i with
    | zero => simp at h
    | succ n => simpa using ih n (by simpa using h)

theorem list_ext_getD {α} (l₁ l₂ : List α) (d : α) (hlen : l₁.length = l₂.length)
    (h : ∀ i, i < l₁.length → l₁.getD i d = l₂.getD i d) : l₁ = l₂ := by
  induction l₁ generalizing l₂ with
  | nil => cases l₂ with
    | nil => rfl
    | cons b t => simp at hlen
  | cons a t ih =>
    cases l₂ with
    | nil => simp at hlen
    | cons b t₂ =>
      have h0 := h 0 (by simp)
      simp only [List.getD_cons_zero] at h0
      subst h0
      have := ih t₂ (by simpa using hlen)
        (fun i hi => by simpa using h (i + 1) (by simpa using hi))
      rw [this]

/-! ### Matrix lemmas for `getCell`/`setCell` -/

theorem length_setCell (m : List (List Cell)) (r c : Nat) (v : Cell) :
    (setCell m r c v).length = m.length := by
  simp [setCell]

theorem rowLen_setCell (m : List (List Cell)) (r c : Nat) (v : Cell) (i : Nat) :
    ((setCell m r c v).getD i []).length = (m.getD i []).length := by
  unfold setCell
  by_cases hi : i = r
  · subst hi
    by_cases hr : i < m.length
    · rw [getD_set_self _ _ _ _ hr, List.length_set]
    · rw [set_of_length_le _ _ _ (Nat.le_of_not_lt hr)]
  · rw [getD_set_ne _ _ _ _ _ (fun he => hi he.symm)]

theorem getCell_setCell_self (m : List (List Cell)) (r c : Nat) (v : Cell)
    (hr : r < m.length) (hc : c < (m.getD r []).length) :
    getCell (setCell m r c v) r c = v := by
  unfold getCell setCell
  rw [getD_set_self _ _ _ _ hr]
  exact getD_set_self _ _ _ _ hc

theorem getCell_setCell_ne (m : List (List Cell)) (r c : Nat) (v : Cell)
    (i j : Nat) (h : ¬(i = r ∧ j = c)) :
    getCell (setCell m r c v) i j = getCell m i j := by
  unfold getCell setCell
  by_cases hi : i = r
  · subst hi
    have hj : j ≠ c := fun hj => h ⟨rfl, hj⟩
    by_cases hr : i < m.length
    · rw [getD_set_self _ _ _ _ hr, getD_set_ne _ _ _ _ _ (fun he => hj he.symm)]
    · rw [set_of_length_le _ _ _ (Nat.le_of_not_lt hr)]
  · rw [getD_set_ne _ _ _ _ _ (fun he => hi he.symm)]

theorem Board.WF_iff_Dims (b : Board) : b.WF ↔ Dims b.cells b.width b.height :=
  Iff.rfl

theorem dims_setCell {m : List (List Cell)} {w h : Nat} (hd : Dims m w h)
    (r c : Nat) (v : Cell) : Dims (setCell m r c v) w h := by
  refine ⟨by rw [length_setCell]; exact hd.1, fun i hi => ?_⟩
  rw [rowLen_setCell]
  exact hd.2 i hi

theorem getCell_eq_of_dims_ext {m₁ m₂ : List (List Cell)} {w h : Nat}
    (h₁ : Dims m₁ w h) (h₂ : Dims m₂ w h)
    (hpt : ∀ r c, r < h → c < w → getCell m₁ r c = getCell m₂ r c) : m₁ = m₂ := by
  apply list_ext_getD _ _ [] (by rw [h₁.1, h₂.1])
  intro i hi
  have hih : i < h := h₁.1 ▸ hi
  apply list_ext_getD _ _ Cell.Dead (by rw [h₁.2 i hih, h₂.2 i hih])
  intro j hj
  have hjw : j < w := h₁.2 i hih ▸ hj
  exact hpt i j hih hjw

/-! ### The generation-advance rule and the synchronous-update characterization -/

theorem dims_tickStep {m : List (List Cell)} {w h : Nat} (hd : Dims m w h)
    (b : Board) (cnt : Board → Position → Nat) (row column : Nat) :
    Dims (tickStep b cnt m row column) w h := by
  simp only [tickStep]
  split_ifs <;> first
    | exact dims_setCell hd row column _
    | exact hd

theorem getCell_tickStep_ne (b : Board) (cnt : Board → Position → Nat)
    (m : List (List Cell)) (row column i j : Nat) (h : ¬(i = row ∧ j = column)) :
    getCell (tickStep b cnt m row column) i j = getCell m i j := by
  simp only [tickStep]
  split_ifs <;> first
    | exact getCell_setCell_ne m row column _ i j h
    | rfl

theorem getCell_tickStep_self (b : Board) (cnt : Board → Position → Nat)
    (m : List (List Cell)) (row column : Nat) (hd : Dims m b.width b.height)
    (hrow : row < b.height) (hcol : column < b.width)
    (hm : getCell m row column = getCell b.cells row column) :
    getCell (tickStep b cnt m row column) row column =
      specNextCell (getCell b.cells row column) (cnt b { row := row, column := column }) := by
  have hr' : row < m.length := by rw [hd.1]; exact hrow
  have hc' : column < (m.getD row []).length := by rw [hd.2 row hrow]; exact hcol
  simp only [tickStep, specNextCell]
  split_ifs <;> first
    | exact getCell_setCell_self m row column _ hr' hc'
    | exact hm

theorem tickWith_cells (cnt : Board → Position → Nat) (b : Board) :
    (tickWith cnt b).cells = outerFold b cnt b.height b.cells := rfl

theorem innerFold_spec (b : Board) (cnt : Board → Position → Nat) (row : Nat)
    (hrow : row < b.height) :
    ∀ (n : Nat) (m : List (List Cell)), n ≤ b.width →
      Dims m b.width b.height →
      (∀ j, getCell m row j = getCell b.cells row j) →
      (∀ i j, i ≠ row → getCell (innerFold b cnt row n m) i j = getCell m i j) ∧
      (∀ j, getCell (innerFold b cnt row n m) row j =
        if j < n then specNextCell (getCell b.cells row j) (cnt b { row := row, column := j })
        else getCell b.cells row j) ∧
      Dims (innerFold b cnt row n m) b.width b.height := by
  intro n
  induction n with
  | zero =>
    intro m _ hd hrowm
    have h0 : innerFold b cnt row 0 m = m := by simp [innerFold]
    refine ⟨fun i j _ => by rw [h0], fun j => ?_, by rw [h0]; exact hd⟩
    rw [h0, if_neg (Nat.not_lt_zero j)]
    exact hrowm j
  | succ k ih =>
    intro m hn hd hrowm
    obtain ⟨ihne, ihrow, ihdims⟩ := ih m (Nat.le_of_succ_le hn) hd hrowm
    have hunf : innerFold b cnt row (k + 1) m =
        tickStep b cnt (innerFold b cnt row k m) row k := by
      simp [innerFold, List.range_succ, List.foldl_append]
    refine ⟨?_, ?_, ?_⟩
    · intro i j hij
      rw [hunf, getCell_tickStep_ne b cnt _ row k i j (fun hc => hij hc.1)]
      exact ihne i j hij
    · intro j
      by_cases hj : j = k
      · subst hj
        rw [hunf, getCell_tickStep_self b cnt _ row j ihdims hrow
          (Nat.lt_of_succ_le hn) (by rw [ihrow j, if_neg (Nat.lt_irrefl j)])]
        rw [if_pos (Nat.lt_succ_self j)]
      · rw [hunf, getCell_tickStep_ne b cnt _ row k row j (fun hc => hj hc.2), ihrow j]
        by_cases hjk : j < k
        · rw [if_pos hjk, if_pos (by omega : j < k + 1)]
        · rw [if_neg hjk, if_neg (by omega : ¬ j < k + 1)]
    · rw [hunf]
      exact dims_tickStep ihdims b cnt row k

theorem outerFold_spec (b : Board) (cnt : Board → Position → Nat) :
    ∀ (n : Nat) (m : List (List Cell)), n ≤ b.height →
      Dims m b.width b.height →
      (∀ i j, getCell m i j = getCell b.cells i j) →
      (∀ i, i < n → ∀ j, j < b.width → getCell (outerFold b cnt n m) i j =
        specNextCell (getCell b.cells i j) (cnt b { row := i, column := j })) ∧
      (∀ i j, n ≤ i → getCell (outerFold b cnt n m) i j = getCell b.cells i j) ∧
      Dims (outerFold b cnt n m) b.width b.height := by
  intro n
  induction n with
  | zero =>
    intro m _ hd hm
    have h0 : outerFold b cnt 0 m = m := by simp [outerFold]
    exact ⟨fun i hi => absurd hi (Nat.not_lt_zero i),
      fun i j _ => by rw [h0]; exact hm i j, by rw [h0]; exact hd⟩
  | succ k ih =>
    intro m hn hd hm
    obtain ⟨ihdone, ihold, ihdims⟩ := ih m (Nat.le_of_succ_le hn) hd hm
    have hunf : outerFold b cnt (k + 1) m =
        innerFold b cnt k b.width (outerFold b cnt k m) := by
      simp [outerFold, List.range_succ, List.foldl_append]
    obtain ⟨hne, hrowk, hdims⟩ := innerFold_spec b cnt k (Nat.lt_of_succ_le hn)
      b.width (outerFold b cnt k m) (Nat.le_refl _) ihdims
      (fun j => ihold k j (Nat.le_refl k))
    refine ⟨?_, ?_, by rw [hunf]; exact hdims⟩
    · intro i hi j hj
      rcases Nat.lt_succ_iff_lt_or_eq.mp hi with hik | hik
      · rw [hunf, hne i j (by omega)]
        exact ihdone i hik j hj
      · subst hik
        rw [hunf, hrowk j, if_pos hj]
    · intro i j hi
      rw [hunf, hne i j (by omega)]
      exact ihold i j (by omega)

/-- Pointwise characterization of both revisions' `tick`: each post-tick cell
is the rule applied to the pre-tick state and the pre-tick neighbor count. -/
theorem getCell_tick (b : Board) (hwf : b.WF) (r c : Nat)
    (hr : r < b.height) (hc : c < b.width) :
    getCell b.tick.cells r c =
      specNextCell (getCell b.cells r c) (b.count_living_neighbors { row := r, column := c }) := by
  have := (outerFold_spec b Board.count_living_neighbors b.height b.cells
    (Nat.le_refl _) hwf (fun _ _ => rfl)).1 r hr c hc
  rw [Board.tick, tickWith_cells]
  exact this

/-- Pointwise characterization of `board.rs`'s `tick`. -/
theorem getCell_tick_mod (b : Board) (hwf : b.WF) (r c : Nat)
    (hr : r < b.height) (hc : c < b.width) :
    getCell b.tick_mod.cells r c =
      specNextCell (getCell b.cells r c)
        (b.count_living_neighbors_mod { row := r, column := c }) := by
  have := (outerFold_spec b Board.count_living_neighbors_mod b.height b.cells
    (Nat.le_refl _) hwf (fun _ _ => rfl)).1 r hr c hc
  rw [Board.tick_mod, tickWith_cells]
  exact this

theorem tickWith_WF (cnt : Board → Position → Nat) (b : Board) (hwf : b.WF) :
    (tickWith cnt b).WF := by
  have := (outerFold_spec b cnt b.height b.cells (Nat.le_refl _) hwf
    (fun _ _ => rfl)).2.2
  rw [Board.WF_iff_Dims]
  exact this

/-! ### The spec's toroidal Moore-neighborhood count -/

theorem wrapIdx_neg_one (n m : Nat) (hm : 1 ≤ m) :
    wrapIdx n (-1) m = (n + (m - 1)) % m := by
  unfold wrapIdx
  have hcast : ((m - 1 : Nat) : Int) = (m : Int) - 1 := by
    push_cast [hm]
    ring
  have hrew : ((n : Int) + (-1)) = ((n + (m - 1) : Nat) : Int) + (m : Int) * (-1) := by
    push_cast [hcast]
    ring
  rw [hrew, Int.add_mul_emod_self_left, ← Int.natCast_mod, Int.toNat_natCast]

theorem wrapIdx_zero (n m : Nat) : wrapIdx n 0 m = n % m := by
  unfold wrapIdx
  rw [add_zero, ← Int.natCast_mod, Int.toNat_natCast]

theorem wrapIdx_one (n m : Nat) : wrapIdx n 1 m = (n + 1) % m := by
  unfold wrapIdx
  rw [show ((n : Int) + 1) = ((n + 1 : Nat) : Int) by push_cast; ring,
    ← Int.natCast_mod, Int.toNat_natCast]

theorem edge_up_eq (r h : Nat) (hr : r < h) :
    (if r ≠ 0 then r - 1 else h - 1) = (r + (h - 1)) % h := by
  by_cases h0 : r = 0
  · subst h0
    rw [if_neg (by simp), Nat.zero_add]
    exact (Nat.mod_eq_of_lt (by omega)).symm
  · rw [if_pos h0, show r + (h - 1) = (r - 1) + h by omega, Nat.add_mod_right]
    exact (Nat.mod_eq_of_lt (by omega)).symm

theorem edge_down_eq (r h : Nat) (hr : r < h) :
    (if r ≠ h - 1 then r + 1 else 0) = (r + 1) % h := by
  by_cases he : r = h - 1
  · rw [if_neg (by simpa using he), show r + 1 = h by omega, Nat.mod_self]
  · rw [if_pos he]
    exact (Nat.mod_eq_of_lt (by omega)).symm

theorem up_ne (r h : Nat) (hr : r < h) (h2 : 2 ≤ h) : (r + (h - 1)) % h ≠ r := by
  rw [← edge_up_eq r h hr]
  by_cases h0 : r = 0
  · subst h0
    rw [if_neg (by simp)]
    omega
  · rw [if_pos h0]
    omega

theorem down_ne (r h : Nat) (hr : r < h) (h2 : 2 ≤ h) : (r + 1) % h ≠ r := by
  rw [← edge_down_eq r h hr]
  by_cases he : r = h - 1
  · rw [if_neg (by simpa using he)]
    omega
  · rw [if_pos he]
    omega

/-- The modulo-based neighbor count of `board.rs` equals the spec's count at
every in-range position, for all dimensions ≥ 1 (1-wide and 1-tall boards
included). -/
theorem count_mod_eq_spec (b : Board) (pos : Position)
    (hr : pos.row < b.height) (hc : pos.column < b.width) :
    b.count_living_neighbors_mod pos = specNeighborCount b pos := by
  have h1 : 1 ≤ b.height := by omega
  have w1 : 1 ≤ b.width := by omega
  simp only [Board.count_living_neighbors_mod, specNeighborCount, neighborOffsets,
    List.foldl_cons, List.foldl_nil,
    wrapIdx_neg_one _ _ h1, wrapIdx_neg_one _ _ w1, wrapIdx_zero, wrapIdx_one,
    Nat.add_zero, Nat.mod_eq_of_lt hr, Nat.mod_eq_of_lt hc,
    ne_eq, Prod.mk.injEq, not_and, and_imp]
  simp

/-- The edge-branching neighbor count of `game.rs` equals the spec's count at
every in-range position as long as both dimensions are at least 2 (so that no
wrapped neighbor index can coincide with `pos`). -/
theorem count_edge_eq_spec (b : Board) (pos : Position)
    (h2 : 2 ≤ b.height) (w2 : 2 ≤ b.width)
    (hr : pos.row < b.height) (hc : pos.column < b.width) :
    b.count_living_neighbors pos = specNeighborCount b pos := by
  have h1 : 1 ≤ b.height := by omega
  have w1 : 1 ≤ b.width := by omega
  have hup := up_ne pos.row b.height hr h2
  have hdown := down_ne pos.row b.height hr h2
  have hleft := up_ne pos.column b.width hc w2
  have hright := down_ne pos.column b.width hc w2
  simp only [Board.count_living_neighbors, specNeighborCount, neighborOffsets,
    List.foldl_cons, List.foldl_nil,
    wrapIdx_neg_one _ _ h1, wrapIdx_neg_one _ _ w1, wrapIdx_zero, wrapIdx_one,
    Nat.add_zero, Nat.mod_eq_of_lt hr, Nat.mod_eq_of_lt hc,
    edge_up_eq pos.row b.height hr, edge_down_eq pos.row b.height hr,
    edge_up_eq pos.column b.width hc, edge_down_eq pos.column b.width hc,
    ne_eq, Prod.mk.injEq, not_and]
  simp [hup, hdown, hleft, hright]

/-! ### Stamping (`add_shape`) and the remaining operations -/

theorem dims_foldl_setAlive {w h : Nat} (ps : List Position) :
    ∀ m, Dims m w h →
      Dims (ps.foldl (fun m p => setCell m p.row p.column Cell.Alive) m) w h := by
  induction ps with
  | nil => intro m hd; exact hd
  | cons p ps ih =>
    intro m hd
    rw [List.foldl_cons]
    exact ih _ (dims_setCell hd p.row p.column Cell.Alive)

theorem getCell_foldl_setAlive {w h : Nat} (ps : List Position) :
    ∀ m, Dims m w h → (∀ p ∈ ps, p.row < h ∧ p.column < w) →
      ∀ r c, r < h → c < w →
        getCell (ps.foldl (fun m p => setCell m p.row p.column Cell.Alive) m) r c =
          if ({ row := r, column := c } : Position) ∈ ps then Cell.Alive
          else getCell m r c := by
  induction ps with
  | nil =>
    intro m _ _ r c _ _
    rw [List.foldl_nil, if_neg (List.not_mem_nil _)]
  | cons p ps ih =>
    intro m hd hps r c hr hc
    rw [List.foldl_cons,
      ih _ (dims_setCell hd p.row p.column Cell.Alive)
        (fun q hq => hps q (List.mem_cons_of_mem _ hq)) r c hr hc]
    by_cases hmem : ({ row := r, column := c } : Position) ∈ ps
    · rw [if_pos hmem, if_pos (List.mem_cons_of_mem _ hmem)]
    · rw [if_neg hmem]
      by_cases hp : p = { row := r, column := c }
      · have hpr : p.row = r := by rw [hp]
        have hpc : p.column = c := by rw [hp]
        rw [hpr, hpc,
          getCell_setCell_self m r c _ (by rw [hd.1]; exact hr)
            (by rw [hd.2 r hr]; exact hc),
          if_pos (by rw [← hp]; exact List.mem_cons_self p ps)]
      · have hne : ¬(r = p.row ∧ c = p.column) := by
          rintro ⟨h1', h2'⟩
          exact hp (by cases p; simp_all)
        have hnotmem : ({ row := r, column := c } : Position) ∉ p :: ps := by
          intro hmem'
          rcases List.mem_cons.mp hmem' with he | hm
          · exact hp he.symm
          · exact hmem hm
        rw [getCell_setCell_ne m p.row p.column _ r c hne, if_neg hnotmem]

theorem get_cells_offset_mem_lt (s : Shape) (pos : Position) (w h : Nat)
    (hw : 1 ≤ w) (hh : 1 ≤ h) :
    ∀ p ∈ ({ s with offset := some pos } : Shape).get_cells w h,
      p.row < h ∧ p.column < w := by
  intro p hp
  simp only [Shape.get_cells, List.mem_map] at hp
  obtain ⟨q, _, rfl⟩ := hp
  exact ⟨Nat.mod_lt _ (show 0 < h by omega), Nat.mod_lt _ (show 0 < w by omega)⟩

theorem add_shape_cells (b : Board) (pos : Position) (shape : Shape) :
    (b.add_shape pos shape).cells =
      (({ shape with offset := some pos } : Shape).get_cells b.width b.height).foldl
        (fun m p => setCell m p.row p.column Cell.Alive) b.cells := rfl

/-- Pointwise description of stamping: covered cells become Alive, all other
cells keep their prior state. -/
theorem getCell_add_shape (b : Board) (pos : Position) (shape : Shape)
    (hwf : b.WF) (hw : 1 ≤ b.width) (hh : 1 ≤ b.height)
    (r c : Nat) (hr : r < b.height) (hc : c < b.width) :
    getCell (b.add_shape pos shape).cells r c =
      if ({ row := r, column := c } : Position) ∈
          ({ shape with offset := some pos } : Shape).get_cells b.width b.height
      then Cell.Alive else getCell b.cells r c := by
  rw [add_shape_cells]
  exact getCell_foldl_setAlive _ b.cells hwf
    (get_cells_offset_mem_lt shape pos b.width b.height hw hh) r c hr hc

theorem add_shape_WF (b : Board) (pos : Position) (shape : Shape) (hwf : b.WF) :
    (b.add_shape pos shape).WF := by
  rw [Board.WF_iff_Dims]
  exact dims_foldl_setAlive _ b.cells hwf

theorem flip_cell_WF (b : Board) (pos : Position) (hwf : b.WF) :
    (b.flip_cell pos).WF := by
  rw [Board.WF_iff_Dims]
  exact dims_setCell hwf pos.row pos.column _

theorem getD_eq_get {α} (l : List α) (i : Nat) (d : α) (h : i < l.length) :
    l.getD i d = l.get ⟨i, h⟩ := by
  induction l generalizing i with
  | nil => simp at h
  | cons a t ih =>
    cases i with
    | zero => rfl
    | succ n => exact ih n (by simpa using h)

theorem getD_map_list {α β} (f : α → β) (l : List α) (i : Nat) (h : i < l.length)
    (d : β) (d' : α) : (l.map f).getD i d = f (l.getD i d') := by
  induction l generalizing i with
  | nil => simp at h
  | cons a t ih =>
    cases i with
    | zero => rfl
    | succ n =>
      simp only [List.map_cons, List.getD_cons_succ]
      exact ih n (by simpa using h)

theorem getD_range (n i : Nat) (d : Nat) (h : i < n) : (List.range n).getD i d = i := by
  rw [getD_eq_get _ i d (by simpa using h)]
  simp

theorem clear_WF (b : Board) (hwf : b.WF) : b.clear.WF := by
  obtain ⟨hlen, hrow⟩ := hwf
  refine ⟨by simpa [Board.clear] using hlen, fun i hi => ?_⟩
  have hi' : i < b.cells.length := by rw [hlen]; exact hi
  show ((b.cells.map (fun row => row.map (fun _ => Cell.Dead))).getD i []).length = b.width
  rw [getD_map_list _ _ i hi' [] [], List.length_map]
  exact hrow i hi

theorem randomize_WF (b : Board) (r : Nat → Nat → Bool) (hwf : b.WF) :
    (b.randomize r).WF := by
  obtain ⟨hlen, hrow⟩ := hwf
  refine ⟨by simpa [Board.randomize] using hlen, fun i hi => ?_⟩
  have hi' : i < b.cells.length := by rw [hlen]; exact hi
  show (((List.range b.cells.length).map (fun i =>
      (List.range (b.cells.getD i []).length).map (fun j =>
        if r i j then Cell.Alive else Cell.Dead))).getD i []).length = b.width
  rw [getD_map_list _ _ i (by simpa using hi') [] 0, getD_range _ _ _ hi',
    List.length_map, List.length_range]
  exact hrow i hi

theorem getCell_flip_cell_self (b : Board) (pos : Position) (hwf : b.WF)
    (hr : pos.row < b.height) (hc : pos.column < b.width) :
    getCell (b.flip_cell pos).cells pos.row pos.column =
      (getCell b.cells pos.row pos.column).flip :=
  getCell_setCell_self _ _ _ _ (by rw [hwf.1]; exact hr)
    (by rw [hwf.2 pos.row hr]; exact hc)

theorem getCell_flip_cell_ne (b : Board) (pos : Position) (i j : Nat)
    (h : ¬(i = pos.row ∧ j = pos.column)) :
    getCell (b.flip_cell pos).cells i j = getCell b.cells i j :=
  getCell_setCell_ne _ _ _ _ i j h

theorem foldl_self {α β} (l : List α) (init : β) :
    l.foldl (fun m _ => m) init = init := by
  induction l generalizing init with
  | nil => rfl
  | cons a t ih => exact ih init

theorem tickWith_degenerate (cnt : Board → Position → Nat) (b : Board)
    (h : b.width = 0 ∨ b.height = 0) : tickWith cnt b = b := by
  have houter : outerFold b cnt b.height b.cells = b.cells := by
    rcases h with hw | hh
    · unfold outerFold innerFold
      rw [hw]
      simp only [List.range_zero, List.foldl_nil]
      exact foldl_self _ _
    · rw [hh]
      unfold outerFold
      simp
  calc tickWith cnt b = { b with cells := outerFold b cnt b.height b.cells } := rfl
    _ = b := by rw [houter]

theorem Board.ext_fields (x y : Board) (h1 : x.width = y.width)
    (h2 : x.height = y.height) (h3 : x.cells = y.cells) : x = y := by
  cases x
  cases y
  simp_all

/-! ### Claim theorems -/

/-- C1: for every well-formed board, `tick` (in both revisions) replaces the
matrix by one in which each cell's next state is computed from the pre-tick
matrix only (the neighbor count is a function of the pre-tick board), under
exactly the spec's rule: Dead with exactly 3 living neighbors becomes Alive,
Alive with count > 3 becomes Dead, Alive with count < 2 becomes Dead, and
every other combination is unchanged. -/
theorem C1_tick_synchronous_rule (b : Board) (hwf : b.WF)
    (hw : 1 ≤ b.width) (hh : 1 ≤ b.height) (r c : Nat)
    (hr : r < b.height) (hc : c < b.width) :
    getCell b.tick.cells r c =
      specNextCell (getCell b.cells r c)
        (b.count_living_neighbors { row := r, column := c }) ∧
    getCell b.tick_mod.cells r c =
      specNextCell (getCell b.cells r c)
        (b.count_living_neighbors_mod { row := r, column := c }) :=
  ⟨getCell_tick b hwf r c hr hc, getCell_tick_mod b hwf r c hr hc⟩

theorem C1_witness :
    getCell sampleBoard.tick.cells 0 0 =
      specNextCell (getCell sampleBoard.cells 0 0)
        (sampleBoard.count_living_neighbors { row := 0, column := 0 }) ∧
    getCell sampleBoard.tick_mod.cells 0 0 =
      specNextCell (getCell sampleBoard.cells 0 0)
        (sampleBoard.count_living_neighbors_mod { row := 0, column := 0 }) :=
  C1_tick_synchronous_rule sampleBoard (by decide) (by decide) (by decide)
    0 0 (by decide) (by decide)

/-- C2 counterexample: on a 1×1 board whose only cell is Alive, the count
the claim describes (8 wrapped offsets, always excluding the cell at `pos`
itself) is 0, but `game.rs`'s `count_living_neighbors` returns 8 — it counts
a wrapped neighbor index that coincides with `pos` instead of excluding it. -/
theorem C2_counterexample :
    (({ width := 1, height := 1, cells := [[Cell.Alive]] } : Board)).count_living_neighbors
        { row := 0, column := 0 } = 8 ∧
    specNeighborCount { width := 1, height := 1, cells := [[Cell.Alive]] }
        { row := 0, column := 0 } = 0 := by decide

/-- C2 (amended): at every in-range position, the modulo-based
`count_living_neighbors` of `board.rs` equals the spec's count — the number
of Alive cells reached by the 8 wrapped Moore offsets, excluding the cell at
`pos` itself — for all board dimensions, width 1 / height 1 included; the
edge-branching `count_living_neighbors` of `game.rs` equals that count
whenever both dimensions are at least 2, but on width-1 or height-1 boards
it also counts wrapped neighbor indices that coincide with `pos`. -/
theorem C2_neighbor_count (b : Board) (pos : Position)
    (hr : pos.row < b.height) (hc : pos.column < b.width) :
    b.count_living_neighbors_mod pos = specNeighborCount b pos ∧
    (2 ≤ b.height → 2 ≤ b.width →
      b.count_living_neighbors pos = specNeighborCount b pos) :=
  ⟨count_mod_eq_spec b pos hr hc, fun h2 w2 => count_edge_eq_spec b pos h2 w2 hr hc⟩

theorem C2_witness :
    sampleBoard.count_living_neighbors_mod { row := 0, column := 0 } =
      specNeighborCount sampleBoard { row := 0, column := 0 } ∧
    sampleBoard.count_living_neighbors { row := 0, column := 0 } =
      specNeighborCount sampleBoard { row := 0, column := 0 } :=
  ⟨(C2_neighbor_count sampleBoard { row := 0, column := 0 } (by decide) (by decide)).1,
   (C2_neighbor_count sampleBoard { row := 0, column := 0 } (by decide) (by decide)).2
     (by decide) (by decide)⟩

/-- C3: seeding a 6×6 board with live cells {(1,2),(2,3),(3,1),(3,2),(3,3)}
and ticking once yields exactly the live set
{(2,1),(2,3),(3,2),(3,3),(4,2)} (and the resulting board equals the board
seeded directly with that expected set, as the repository's `test_tick`
asserts). -/
theorem C3_known_pattern_round_trip :
    (Board.new 6 6 (some [{ row := 1, column := 2 }, { row := 2, column := 3 },
      { row := 3, column := 1 }, { row := 3, column := 2 },
      { row := 3, column := 3 }])).isSome = true ∧
    (Board.new 6 6 (some [{ row := 1, column := 2 }, { row := 2, column := 3 },
      { row := 3, column := 1 }, { row := 3, column := 2 },
      { row := 3, column := 3 }])).map Board.tick =
      Board.new 6 6 (some [{ row := 2, column := 1 }, { row := 2, column := 3 },
        { row := 3, column := 2 }, { row := 3, column := 3 },
        { row := 4, column := 2 }]) ∧
    ∀ r, r < 6 → ∀ c, c < 6 →
      (getCell (((Board.new 6 6 (some [{ row := 1, column := 2 },
          { row := 2, column := 3 }, { row := 3, column := 1 },
          { row := 3, column := 2 }, { row := 3, column := 3 }])).getD
            { width := 0, height := 0, cells := [] }).tick).cells r c = Cell.Alive ↔
        (r, c) ∈ ([(2, 1), (2, 3), (3, 2), (3, 3), (4, 2)] : List (Nat × Nat))) := by
  decide

theorem C3_witness :
    (getCell (((Board.new 6 6 (some [{ row := 1, column := 2 },
        { row := 2, column := 3 }, { row := 3, column := 1 },
        { row := 3, column := 2 }, { row := 3, column := 3 }])).getD
          { width := 0, height := 0, cells := [] }).tick).cells 2 1 = Cell.Alive ↔
      (2, 1) ∈ ([(2, 1), (2, 3), (3, 2), (3, 3), (4, 2)] : List (Nat × Nat))) :=
  C3_known_pattern_round_trip.2.2 2 (by decide) 1 (by decide)

/-- C4 counterexample: `board.rs`'s `get_cells` applies a set translation
without any modulo wrapping: pattern offset (2,2) with translation (2,2)
materializes to (4,4), not the ((2+2) mod 3, (2+2) mod 3) = (1,1) that the
claim requires for a 3×3 target. -/
theorem C4_counterexample :
    Shape.get_cells_unwrapped
        { pattern := [{ row := 2, column := 2 }],
          offset := some { row := 2, column := 2 } } =
      [{ row := 4, column := 4 }] ∧
    [({ row := 4, column := 4 } : Position)] ≠
      [{ row := (2 + 2) % 3, column := (2 + 2) % 3 }] := by decide

/-- C4 (amended): `game.rs`'s dimension-aware `get_cells(width, height)`
behaves exactly as claimed — an ordered sequence with one output per pattern
offset in the original order, each offset mapped to
`((dr+tr) mod height, (dc+tc) mod width)` when a translation is set and
returned unmodified when none is; `board.rs`'s `get_cells()` takes no target
dimensions and applies the translation without modulo wrapping, returning
`(dr+tr, dc+tc)`. -/
theorem C4_materialize (s : Shape) (w h : Nat) :
    ((s.get_cells w h).length = s.pattern.length ∧
      s.get_cells_unwrapped.length = s.pattern.length) ∧
    (∀ t, s.offset = some t →
      ∀ i, i < s.pattern.length → ∀ d : Position,
        (s.get_cells w h).getD i d =
          { row := ((s.pattern.getD i d).row + t.row) % h,
            column := ((s.pattern.getD i d).column + t.column) % w } ∧
        s.get_cells_unwrapped.getD i d =
          { row := (s.pattern.getD i d).row + t.row,
            column := (s.pattern.getD i d).column + t.column }) ∧
    (s.offset = none → s.get_cells w h = s.pattern ∧
      s.get_cells_unwrapped = s.pattern) := by
  refine ⟨?_, ?_, ?_⟩
  · cases ho : s.offset <;>
      simp [Shape.get_cells, Shape.get_cells_unwrapped, ho]
  · intro t ht i hi d
    simp only [Shape.get_cells, Shape.get_cells_unwrapped, ht]
    constructor
    · rw [getD_map_list _ _ i hi d d]
    · rw [getD_map_list _ _ i hi d d]
  · intro ho
    simp [Shape.get_cells, Shape.get_cells_unwrapped, ho]

theorem C4_witness :
    ((Shape.new [(2, 2)] (some { row := 2, column := 2 })).get_cells 3 3).getD 0
        { row := 0, column := 0 } =
      { row := (((Shape.new [(2, 2)] (some { row := 2, column := 2 })).pattern.getD 0
          { row := 0, column := 0 }).row + 2) % 3,
        column := (((Shape.new [(2, 2)] (some { row := 2, column := 2 })).pattern.getD 0
          { row := 0, column := 0 }).column + 2) % 3 } ∧
    (Shape.new [(2, 2)] (some { row := 2, column := 2 })).get_cells_unwrapped.getD 0
        { row := 0, column := 0 } =
      { row := ((Shape.new [(2, 2)] (some { row := 2, column := 2 })).pattern.getD 0
          { row := 0, column := 0 }).row + 2,
        column := ((Shape.new [(2, 2)] (some { row := 2, column := 2 })).pattern.getD 0
          { row := 0, column := 0 }).column + 2 } :=
  (C4_materialize (Shape.new [(2, 2)] (some { row := 2, column := 2 })) 3 3).2.1
    { row := 2, column := 2 } rfl 0 (by decide) { row := 0, column := 0 }

/-- C5: every board operation — `tick` (both revisions), `flip_cell`,
`add_shape`, `clear`, `randomize` — preserves the matrix-shape invariant
(exactly `height` rows of exactly `width` cells) and leaves the `width` and
`height` fields unchanged. -/
theorem C5_shape_invariant (b : Board) (hwf : b.WF) (pos : Position)
    (shape : Shape) (r : Nat → Nat → Bool) :
    (b.tick.WF ∧ b.tick.width = b.width ∧ b.tick.height = b.height) ∧
    (b.tick_mod.WF ∧ b.tick_mod.width = b.width ∧ b.tick_mod.height = b.height) ∧
    ((b.flip_cell pos).WF ∧ (b.flip_cell pos).width = b.width ∧
      (b.flip_cell pos).height = b.height) ∧
    ((b.add_shape pos shape).WF ∧ (b.add_shape pos shape).width = b.width ∧
      (b.add_shape pos shape).height = b.height) ∧
    (b.clear.WF ∧ b.clear.width = b.width ∧ b.clear.height = b.height) ∧
    ((b.randomize r).WF ∧ (b.randomize r).width = b.width ∧
      (b.randomize r).height = b.height) :=
  ⟨⟨tickWith_WF _ b hwf, rfl, rfl⟩, ⟨tickWith_WF _ b hwf, rfl, rfl⟩,
   ⟨flip_cell_WF b pos hwf, rfl, rfl⟩, ⟨add_shape_WF b pos shape hwf, rfl, rfl⟩,
   ⟨clear_WF b hwf, rfl, rfl⟩, ⟨randomize_WF b r hwf, rfl, rfl⟩⟩

theorem C5_witness :
    sampleBoard.tick.WF ∧ sampleBoard.tick_mod.WF ∧
    (sampleBoard.flip_cell { row := 0, column := 0 }).WF ∧
    (sampleBoard.add_shape { row := 0, column := 0 } (Shape.new GLIDER none)).WF ∧
    sampleBoard.clear.WF ∧ (sampleBoard.randomize (fun _ _ => true)).WF :=
  ⟨(C5_shape_invariant sampleBoard (by decide) { row := 0, column := 0 }
      (Shape.new GLIDER none) (fun _ _ => true)).1.1,
   (C5_shape_invariant sampleBoard (by decide) { row := 0, column := 0 }
      (Shape.new GLIDER none) (fun _ _ => true)).2.1.1,
   (C5_shape_invariant sampleBoard (by decide) { row := 0, column := 0 }
      (Shape.new GLIDER none) (fun _ _ => true)).2.2.1.1,
   (C5_shape_invariant sampleBoard (by decide) { row := 0, column := 0 }
      (Shape.new GLIDER none) (fun _ _ => true)).2.2.2.1.1,
   (C5_shape_invariant sampleBoard (by decide) { row := 0, column := 0 }
      (Shape.new GLIDER none) (fun _ _ => true)).2.2.2.2.1.1,
   (C5_shape_invariant sampleBoard (by decide) { row := 0, column := 0 }
      (Shape.new GLIDER none) (fun _ _ => true)).2.2.2.2.2.1⟩

/-- C6: stamping only sets cells to Alive — every cell at a materialized
position of the stamped shape (whose offset `add_shape` replaces by `pos`)
is Alive afterward, every other cell keeps exactly its prior state, and in
particular an Alive cell is never turned Dead. -/
theorem C6_stamp_never_clears (b : Board) (pos : Position) (shape : Shape)
    (hwf : b.WF) (hw : 1 ≤ b.width) (hh : 1 ≤ b.height) (r c : Nat)
    (hr : r < b.height) (hc : c < b.width) :
    (({ row := r, column := c } : Position) ∈
        ({ shape with offset := some pos } : Shape).get_cells b.width b.height →
      getCell (b.add_shape pos shape).cells r c = Cell.Alive) ∧
    (({ row := r, column := c } : Position) ∉
        ({ shape with offset := some pos } : Shape).get_cells b.width b.height →
      getCell (b.add_shape pos shape).cells r c = getCell b.cells r c) ∧
    (getCell b.cells r c = Cell.Alive →
      getCell (b.add_shape pos shape).cells r c = Cell.Alive) := by
  have h := getCell_add_shape b pos shape hwf hw hh r c hr hc
  refine ⟨fun hmem => by rw [h, if_pos hmem], fun hmem => by rw [h, if_neg hmem], ?_⟩
  intro ha
  rw [h]
  by_cases hmem : ({ row := r, column := c } : Position) ∈
      ({ shape with offset := some pos } : Shape).get_cells b.width b.height
  · rw [if_pos hmem]
  · rw [if_neg hmem]
    exact ha

theorem C6_witness :
    getCell (sampleBoard.add_shape { row := 0, column := 0 }
      (Shape.new GLIDER none)).cells 0 0 = Cell.Alive :=
  (C6_stamp_never_clears sampleBoard { row := 0, column := 0 }
    (Shape.new GLIDER none) (by decide) (by decide) (by decide) 0 0
    (by decide) (by decide)).1 (by decide)

/-- C7 counterexample: construction with width = 0 and height = 0 does not
fail — `Board::new` returns a Board value. -/
theorem C7_counterexample :
    Board.new 0 0 none = some { width := 0, height := 0, cells := [] } := by
  decide

/-- C7 (amended): construction with width 0 or height 0 does not fail; it
returns a Board with the degenerate dimensions, and no modulo division by
zero can follow from `tick` on such a board, because the generation loops
iterate zero cells — the neighbor-wrap arithmetic is never reached and the
board is left unchanged. -/
theorem C7_degenerate_construction (w h : Nat) (hwh : w = 0 ∨ h = 0) :
    ∃ b : Board, Board.new w h none = some b ∧ b.width = w ∧ b.height = h ∧
      b.tick = b ∧ b.tick_mod = b := by
  refine ⟨⟨w, h, List.replicate h (List.replicate w Cell.Dead)⟩, rfl, rfl, rfl, ?_, ?_⟩
  · exact tickWith_degenerate _ _ hwh
  · exact tickWith_degenerate _ _ hwh

theorem C7_witness :
    ∃ b : Board, Board.new 0 0 none = some b ∧ b.width = 0 ∧ b.height = 0 ∧
      b.tick = b ∧ b.tick_mod = b :=
  C7_degenerate_construction 0 0 (Or.inl rfl)

/-- C8: in the wrapping `u16` model, `in_bounds` evaluates totally — also
when the terminal is narrower than the rendered board and the margin
subtraction wraps — and (a) whenever it returns a position `p`, `p` is
strictly inside the grid (`p.row < height`, `p.column < width`), while (b)
under a terminal wide enough for the board (and non-overflowing dimensions)
it returns an error exactly when the screen coordinate lies outside the
rendered board region. -/
theorem C8_in_bounds_safe (b : Board) (row column : Nat) (term_rect : Rect) :
    (∀ p, b.in_bounds row column term_rect = some p →
      p.row < b.height ∧ p.column < b.width) ∧
    (term_rect.width < 65536 → b.width * 2 ≤ term_rect.width →
      b.height + 5 < 65536 →
      (b.in_bounds row column term_rect = none ↔
        ¬renderedRegion b term_rect row column)) := by
  constructor
  · intro p hp
    simp only [Board.in_bounds, GAME_BOARD_TOP] at hp
    split_ifs at hp with hcond
    · obtain ⟨h1, h2, h3, h4⟩ := hcond
      cases p with
      | mk pr pc =>
        have hinj := Option.some.inj hp
        rw [Position.mk.injEq] at hinj
        obtain ⟨hr', hc'⟩ := hinj
        constructor
        · show pr < b.height
          omega
        · show pc < b.width
          omega
  · intro hrw h2w hh5
    simp only [Board.in_bounds, GAME_BOARD_TOP, renderedRegion]
    split_ifs with hcond
    · have hreg : 5 ≤ row ∧ row < 5 + b.height ∧
          (term_rect.width - b.width * 2) / 2 ≤ column ∧
          column < (term_rect.width - b.width * 2) / 2 + b.width * 2 := by
        obtain ⟨h1, h2, h3, h4⟩ := hcond
        omega
      simp [hreg]
    · have hreg : ¬(5 ≤ row ∧ row < 5 + b.height ∧
          (term_rect.width - b.width * 2) / 2 ≤ column ∧
          column < (term_rect.width - b.width * 2) / 2 + b.width * 2) := by
        intro hr
        exact hcond (by obtain ⟨h1, h2, h3, h4⟩ := hr; refine ⟨by omega, by omega, by omega, by omega⟩)
      simp [hreg]

theorem C8_witness :
    (({ row := 0, column := 0 } : Position).row <
        ({ width := 4, height := 4, cells := [] } : Board).height ∧
      ({ row := 0, column := 0 } : Position).column <
        ({ width := 4, height := 4, cells := [] } : Board).width) ∧
    (({ width := 4, height := 4, cells := [] } : Board).in_bounds 3 6
        { x := 0, y := 0, width := 20, height := 30 } = none ↔
      ¬renderedRegion { width := 4, height := 4, cells := [] }
        { x := 0, y := 0, width := 20, height := 30 } 3 6) :=
  ⟨(C8_in_bounds_safe { width := 4, height := 4, cells := [] } 5 6
      { x := 0, y := 0, width := 20, height := 30 }).1
      { row := 0, column := 0 } (by decide),
   (C8_in_bounds_safe { width := 4, height := 4, cells := [] } 3 6
      { x := 0, y := 0, width := 20, height := 30 }).2
      (by decide) (by decide) (by decide)⟩

/-- C9: `flip_cell` toggles exactly the cell at `pos` (Alive becomes Dead,
Dead becomes Alive) and leaves every other cell of the matrix unchanged. -/
theorem C9_flip_cell_toggles (b : Board) (pos : Position) (hwf : b.WF)
    (hr : pos.row < b.height) (hc : pos.column < b.width) :
    getCell (b.flip_cell pos).cells pos.row pos.column =
      (getCell b.cells pos.row pos.column).flip ∧
    (getCell b.cells pos.row pos.column = Cell.Alive →
      getCell (b.flip_cell pos).cells pos.row pos.column = Cell.Dead) ∧
    (getCell b.cells pos.row pos.column = Cell.Dead →
      getCell (b.flip_cell pos).cells pos.row pos.column = Cell.Alive) ∧
    ∀ i j, ¬(i = pos.row ∧ j = pos.column) →
      getCell (b.flip_cell pos).cells i j = getCell b.cells i j := by
  have hself := getCell_flip_cell_self b pos hwf hr hc
  refine ⟨hself, fun ha => by rw [hself, ha]; rfl,
    fun hd => by rw [hself, hd]; rfl,
    fun i j hij => getCell_flip_cell_ne b pos i j hij⟩

theorem C9_witness :
    getCell (sampleBoard.flip_cell { row := 0, column := 1 }).cells 0 1 =
      (getCell sampleBoard.cells 0 1).flip ∧
    getCell (sampleBoard.flip_cell { row := 0, column := 1 }).cells 0 0 =
      getCell sampleBoard.cells 0 0 :=
  ⟨(C9_flip_cell_toggles sampleBoard { row := 0, column := 1 } (by decide)
      (by decide) (by decide)).1,
   (C9_flip_cell_toggles sampleBoard { row := 0, column := 1 } (by decide)
      (by decide) (by decide)).2.2.2 0 0 (by decide)⟩

/-- C10: stamping is idempotent — `add_shape` twice with the same arguments
produces exactly the same board as once. -/
theorem C10_stamp_idempotent (b : Board) (pos : Position) (shape : Shape)
    (hwf : b.WF) (hw : 1 ≤ b.width) (hh : 1 ≤ b.height) :
    (b.add_shape pos shape).add_shape pos shape = b.add_shape pos shape := by
  have hwf1 : (b.add_shape pos shape).WF := add_shape_WF b pos shape hwf
  have hcells : ((b.add_shape pos shape).add_shape pos shape).cells =
      (b.add_shape pos shape).cells := by
    apply getCell_eq_of_dims_ext (w := b.width) (h := b.height)
      (add_shape_WF (b.add_shape pos shape) pos shape hwf1) hwf1
    intro r c hr hc
    rw [getCell_add_shape (b.add_shape pos shape) pos shape hwf1 hw hh r c hr hc,
      getCell_add_shape b pos shape hwf hw hh r c hr hc]
    have hsets : ({ shape with offset := some pos } : Shape).get_cells
        (b.add_shape pos shape).width (b.add_shape pos shape).height =
        ({ shape with offset := some pos } : Shape).get_cells b.width b.height := rfl
    rw [hsets]
    by_cases hmem : ({ row := r, column := c } : Position) ∈
        ({ shape with offset := some pos } : Shape).get_cells b.width b.height
    · rw [if_pos hmem, if_pos hmem]
    · rw [if_neg hmem, if_neg hmem]
  exact Board.ext_fields _ _ rfl rfl hcells

theorem C10_witness :
    (sampleBoard.add_shape { row := 0, column := 0 }
        (Shape.new GLIDER none)).add_shape { row := 0, column := 0 }
        (Shape.new GLIDER none) =
      sampleBoard.add_shape { row := 0, column := 0 } (Shape.new GLIDER none) :=
  C10_stamp_idempotent sampleBoard { row := 0, column := 0 }
    (Shape.new GLIDER none) (by decide) (by decide) (by decide)

end Gol
